import Mathlib

/-!
Verification development for the Simple_GAN repository (src/gan.ipynb).

The notebook is a straight-line Keras script: it loads and normalises a
dataset, builds a discriminator D, a generator G and a composite model
full_gan = D ∘ G with D frozen, runs a 30000-iteration alternating
training loop, and finally renders 9 generated samples.

The shallow embedding below models:
* the normalisation line over exact rationals, with an explicit value
  type carrying NaN and infinities so that the numpy division-by-zero
  behaviour on a constant dataset is representable;
* the architecture arithmetic of the model-building cell;
* the sequence of framework calls made by the script as a state machine,
  with the Keras rule that train_on_batch updates exactly the parameter
  sets that were trainable when the model was compiled;
* the forward passes of D and G as exact functions (dense layers and
  leaky rectifiers over ℚ, the final sigmoid over ℝ);
* the diagnostic line formatting of the training loop.
-/

/-! ## Dataset normalisation (notebook cell 1)

Source line:
  X_train = (X_train - np.min(X_train)) / (np.max(X_train) - np.min(X_train))
-/

/-- Values produced by numpy floating-point division: a finite number,
NaN, or a signed infinity. -/
inductive NVal where
  | num (q : ℚ)
  | nan
  | inf
  | ninf
deriving DecidableEq

/-- numpy division semantics on finite operands: division by zero yields
NaN for a zero numerator and a signed infinity otherwise; all other
quotients are finite. -/
def npDiv (a b : ℚ) : NVal :=
  if b = 0 then (if a = 0 then NVal.nan else if 0 < a then NVal.inf else NVal.ninf)
  else NVal.num (a / b)

/-- Binary minimum on ℚ, written out so that it reduces in the kernel. -/
def rmin (a b : ℚ) : ℚ := if a ≤ b then a else b

/-- Binary maximum on ℚ, written out so that it reduces in the kernel. -/
def rmax (a b : ℚ) : ℚ := if a ≤ b then b else a

/-- np.min over the whole loaded collection (0 on an empty collection,
a case the notebook never hits). -/
def listMin : List ℚ → ℚ
  | [] => 0
  | x :: xs => xs.foldl rmin x

/-- np.max over the whole loaded collection. -/
def listMax : List ℚ → ℚ
  | [] => 0
  | x :: xs => xs.foldl rmax x

/-- The normalisation line of the notebook: every pixel x of the loaded
collection is mapped to (x - min) / (max - min), with min and max
computed once over the entire collection.  The collection is flattened
to the list of all pixel values, which is how np.min and np.max see it. -/
def normalizeData (xs : List ℚ) : List NVal :=
  xs.map (fun x => npDiv (x - listMin xs) (listMax xs - listMin xs))

/-- A finite value inside the closed unit interval. -/
def isUnitNum : NVal → Bool
  | NVal.num q => decide (0 ≤ q) && decide (q ≤ 1)
  | _ => false

/-- A finite (well-defined) value. -/
def isNum : NVal → Bool
  | NVal.num _ => true
  | _ => false

/-! ## Model-building arithmetic (notebook cell 2)

Source lines:
  img_shape = (X_train.shape[1], X_train.shape[2])
  res = X_train.shape[1] * X_train.shape[2]
  noise_res = int(res / 4)
followed by the unconditional construction of D, G and full_gan; the
cell contains no validation of any of these quantities.
-/

/-- res = H * W, the image resolution. -/
def res (H W : Nat) : Nat := H * W

/-- noise_res = int(res / 4); Python int() truncates toward zero, which
on nonnegative values is floor division. -/
def noise_res (H W : Nat) : Nat := res H W / 4

/-- The static architecture produced by the model-building cell:
the dense-layer widths of D and G, the noise dimensionality, and the
target image shape of the final Reshape layer. -/
structure GanArch where
  dSizes : List Nat
  gSizes : List Nat
  noiseDim : Nat
  imgShape : Nat × Nat
deriving DecidableEq

/-- The model-building cell.  It computes the layer widths from res and
constructs the three models unconditionally: the source contains no
guard on noise_res (or on anything else), so construction never
rejects.  The Except return type only records that the cell has no
error branch of its own. -/
def buildModels (H W : Nat) : Except String GanArch :=
  Except.ok
    { dSizes := [res H W / 2, res H W / 4, res H W / 8, 1]
      gSizes := [res H W / 4, res H W / 2, res H W, res H W]
      noiseDim := noise_res H W
      imgShape := (H, W) }

/-- Whether construction succeeded. -/
def isOkB : Except String GanArch → Bool
  | Except.ok _ => true
  | Except.error _ => false

/-! ### Helper lemmas about listMin and listMax -/

lemma rmin_le_left (a b : ℚ) : rmin a b ≤ a := by
  unfold rmin; split
  · exact le_refl a
  · exact le_of_not_le (by assumption)

lemma rmin_le_right (a b : ℚ) : rmin a b ≤ b := by
  unfold rmin; split
  · assumption
  · exact le_refl b

lemma left_le_rmax (a b : ℚ) : a ≤ rmax a b := by
  unfold rmax; split
  · assumption
  · exact le_refl a

lemma right_le_rmax (a b : ℚ) : b ≤ rmax a b := by
  unfold rmax; split
  · exact le_refl b
  · exact le_of_not_le (by assumption)

lemma foldl_rmin_le_init (xs : List ℚ) : ∀ a : ℚ, xs.foldl rmin a ≤ a := by
  induction xs with
  | nil => intro a; simp
  | cons x xs ih =>
      intro a
      calc (x :: xs).foldl rmin a = xs.foldl rmin (rmin a x) := rfl
        _ ≤ rmin a x := ih (rmin a x)
        _ ≤ a := rmin_le_left a x

lemma foldl_rmin_le_mem (xs : List ℚ) : ∀ (a y : ℚ), y ∈ xs → xs.foldl rmin a ≤ y := by
  induction xs with
  | nil => intro a y hy; cases hy
  | cons x xs ih =>
      intro a y hy
      rcases List.mem_cons.mp hy with h | h
      · subst h
        calc (y :: xs).foldl rmin a = xs.foldl rmin (rmin a y) := rfl
          _ ≤ rmin a y := foldl_rmin_le_init xs (rmin a y)
          _ ≤ y := rmin_le_right a y
      · exact ih (rmin a x) y h

lemma listMin_le_mem {xs : List ℚ} {y : ℚ} (hy : y ∈ xs) : listMin xs ≤ y := by
  cases xs with
  | nil => cases hy
  | cons x t =>
      rcases List.mem_cons.mp hy with h | h
      · subst h; exact foldl_rmin_le_init t y
      · exact foldl_rmin_le_mem t x y h

lemma init_le_foldl_rmax (xs : List ℚ) : ∀ a : ℚ, a ≤ xs.foldl rmax a := by
  induction xs with
  | nil => intro a; simp
  | cons x xs ih =>
      intro a
      calc a ≤ rmax a x := left_le_rmax a x
        _ ≤ xs.foldl rmax (rmax a x) := ih (rmax a x)
        _ = (x :: xs).foldl rmax a := rfl

lemma mem_le_foldl_rmax (xs : List ℚ) : ∀ (a y : ℚ), y ∈ xs → y ≤ xs.foldl rmax a := by
  induction xs with
  | nil => intro a y hy; cases hy
  | cons x xs ih =>
      intro a y hy
      rcases List.mem_cons.mp hy with h | h
      · subst h
        calc y ≤ rmax a y := right_le_rmax a y
          _ ≤ xs.foldl rmax (rmax a y) := init_le_foldl_rmax xs (rmax a y)
          _ = (y :: xs).foldl rmax a := rfl
      · exact ih (rmax a x) y h

lemma mem_le_listMax {xs : List ℚ} {y : ℚ} (hy : y ∈ xs) : y ≤ listMax xs := by
  cases xs with
  | nil => cases hy
  | cons x t =>
      rcases List.mem_cons.mp hy with h | h
      · subst h; exact init_le_foldl_rmax t y
      · exact mem_le_foldl_rmax t x y h

/-! ### Claims C5 and C9 -/

/-- C5: before the training loop, the dataset is normalised exactly once,
elementwise, by x ↦ (x - min) / (max - min) with min and max computed
over the whole collection, and afterwards (for the actually loaded,
non-constant dataset) every pixel value is a finite number in [0, 1]. -/
theorem c5_normalization_unit_interval (xs : List ℚ) (v : NVal)
    (hlt : listMin xs < listMax xs) (hv : v ∈ normalizeData xs) :
    isUnitNum v = true := by
  rcases List.mem_map.mp hv with ⟨x, hx, rfl⟩
  have hmn : listMin xs ≤ x := listMin_le_mem hx
  have hmx : x ≤ listMax xs := mem_le_listMax hx
  have hden : listMax xs - listMin xs ≠ 0 := by
    intro h
    exact absurd (sub_eq_zero.mp h).symm (ne_of_lt hlt)
  have hdenpos : 0 < listMax xs - listMin xs := sub_pos.mpr hlt
  unfold npDiv
  rw [if_neg hden]
  unfold isUnitNum
  have h0 : 0 ≤ (x - listMin xs) / (listMax xs - listMin xs) :=
    div_nonneg (sub_nonneg.mpr hmn) (le_of_lt hdenpos)
  have h1 : (x - listMin xs) / (listMax xs - listMin xs) ≤ 1 := by
    rw [div_le_one hdenpos]
    exact sub_le_sub_right hmx (listMin xs)
  simp [h0, h1]

/-- Witness for C5 at the concrete dataset [0, 1, 2]: the normalised
value of the pixel 1 is a finite number in [0, 1]. -/
theorem c5_normalization_unit_interval_witness :
    isUnitNum (npDiv ((1:ℚ) - listMin [0, 1, 2]) (listMax [0, 1, 2] - listMin [0, 1, 2])) = true :=
  c5_normalization_unit_interval [0, 1, 2]
    (npDiv ((1:ℚ) - listMin [0, 1, 2]) (listMax [0, 1, 2] - listMin [0, 1, 2]))
    (by decide) (List.mem_map.mpr ⟨1, by decide, rfl⟩)

/-- C9: on a constant dataset (max = min) the normalisation divides by
zero and every produced value is NaN rather than a number in [0, 1];
the code has no guard for this, and the division is well defined
exactly on the non-constant datasets (min < max). -/
theorem c9_constant_dataset_nan (xs : List ℚ) (hne : xs ≠ []) :
    ((∀ v ∈ normalizeData xs, isNum v = true) ↔ listMin xs < listMax xs) ∧
    (listMax xs = listMin xs → ∀ v ∈ normalizeData xs, v = NVal.nan) := by
  have hconst : listMax xs = listMin xs → ∀ v ∈ normalizeData xs, v = NVal.nan := by
    intro heq v hv
    rcases List.mem_map.mp hv with ⟨x, hx, rfl⟩
    have hmn : listMin xs ≤ x := listMin_le_mem hx
    have hmx : x ≤ listMax xs := mem_le_listMax hx
    have hxeq : x = listMin xs := le_antisymm (heq ▸ hmx) hmn
    have hden : listMax xs - listMin xs = 0 := by rw [heq, sub_self]
    have hnum : x - listMin xs = 0 := by rw [hxeq, sub_self]
    unfold npDiv
    rw [if_pos hden, if_pos hnum]
  constructor
  · constructor
    · intro hall
      by_contra hnot
      have hle : listMin xs ≤ listMax xs := by
        cases xs with
        | nil => exact absurd rfl hne
        | cons x t =>
            exact le_trans (listMin_le_mem (List.mem_cons_self x t))
              (mem_le_listMax (List.mem_cons_self x t))
      have heq : listMax xs = listMin xs := le_antisymm (not_lt.mp hnot) hle
      cases xs with
      | nil => exact absurd rfl hne
      | cons x t =>
          have hv : NVal.nan ∈ normalizeData (x :: t) := by
            have hx : x ∈ (x :: t) := List.mem_cons_self x t
            have := hconst heq (npDiv (x - listMin (x :: t)) (listMax (x :: t) - listMin (x :: t)))
              (List.mem_map.mpr ⟨x, hx, rfl⟩)
            rw [← this]
            exact List.mem_map.mpr ⟨x, hx, rfl⟩
          have := hall NVal.nan hv
          simp [isNum] at this
    · intro hlt v hv
      rcases List.mem_map.mp hv with ⟨x, hx, rfl⟩
      have hden : listMax xs - listMin xs ≠ 0 := by
        intro h
        exact absurd (sub_eq_zero.mp h).symm (ne_of_lt hlt)
      unfold npDiv
      rw [if_neg hden]
      rfl
  · exact hconst

/-- Witness for C9 at the constant dataset [5, 5]: the normalised value
of either pixel is NaN. -/
theorem c9_constant_dataset_nan_witness :
    npDiv ((5:ℚ) - listMin [5, 5]) (listMax [5, 5] - listMin [5, 5]) = NVal.nan :=
  (c9_constant_dataset_nan [5, 5] (by decide)).2 (by decide)
    (npDiv ((5:ℚ) - listMin [5, 5]) (listMax [5, 5] - listMin [5, 5]))
    (List.mem_map.mpr ⟨5, by decide, rfl⟩)

/-! ### Claim C3 -/

/-- C3 counterexample: for a dataset of 1×1 images the noise dimension
N = floor(1·1/4) = 0 < 1, yet the model-building cell still succeeds —
the source has no guard rejecting construction. -/
theorem c3_counterexample :
    noise_res 1 1 = 0 ∧ isOkB (buildModels 1 1) = true := by
  decide

/-- C3 amended: the Model Builder performs no validation of the noise
dimension: construction succeeds for every dataset shape (H, W),
including exactly those with H*W < 4, where N = floor(H*W/4) = 0. -/
theorem c3_no_rejection (H W : Nat) :
    isOkB (buildModels H W) = true ∧ (noise_res H W = 0 ↔ H * W < 4) := by
  constructor
  · rfl
  · unfold noise_res res
    omega

/-! ## The script as a state machine (notebook cells 2 and 3)

The notebook makes a fixed sequence of framework calls.  The state
records abstract versions of the parameter storage of D and G (the
composite model shares this storage rather than copying it), the
D.trainable attribute, and — following the Keras rule that
train_on_batch updates exactly the parameter sets that were trainable
when the model was compiled — the snapshots of D.trainable taken by
D.compile and by full_gan.compile.  In the source, D.compile runs
before `D.trainable = False` and full_gan.compile runs after it.
-/

/-- epochs = 30000. -/
def epochs : Nat := 30000

/-- batch_size = 32. -/
def batch_size : Nat := 32

/-- half_batch_size = int(batch_size / 2). -/
def half_batch_size : Nat := batch_size / 2

/-- np.ones(n): the target label 1.0 for every one of the n examples. -/
def realTargets (n : Nat) : List ℚ := List.replicate n 1

/-- np.zeros(n): the target label 0.0 for every one of the n examples. -/
def fakeTargets (n : Nat) : List ℚ := List.replicate n 0

/-- One framework call made by the script.  Training events carry the
batch size and the per-example target labels passed to train_on_batch. -/
inductive Event where
  | compileD
  | assignTrainable (b : Bool)
  | buildComposite
  | compileGan
  | sampleReal (n : Nat)
  | gPredict (n : Nat)
  | dTrainReal (n : Nat) (labels : List ℚ)
  | dTrainFake (n : Nat) (labels : List ℚ)
  | ganTrain (n : Nat) (labels : List ℚ)
  | printLine (e : Nat)
deriving DecidableEq

/-- The framework-visible state of the script: version counters stand
for the contents of the parameter storage of D and G (a training update
bumps the counter of every parameter set it writes), together with the
D.trainable attribute and the compile-time snapshots of it. -/
structure KState where
  dVer : Nat
  gVer : Nat
  dTrainable : Bool
  dCompiledTrainable : Option Bool
  ganCompiledDTrainable : Option Bool
  ganBuilt : Bool
deriving DecidableEq

/-- Keras semantics of one framework call.  compile snapshots the
current trainable flags; train_on_batch updates exactly the parameter
sets that were trainable at that model compile; predict and the
random sampling calls touch no state at all. -/
def step (s : KState) : Event → KState
  | Event.compileD => { s with dCompiledTrainable := some s.dTrainable }
  | Event.assignTrainable b => { s with dTrainable := b }
  | Event.buildComposite => { s with ganBuilt := true }
  | Event.compileGan => { s with ganCompiledDTrainable := some s.dTrainable }
  | Event.sampleReal _ => s
  | Event.gPredict _ => s
  | Event.dTrainReal _ _ =>
      if s.dCompiledTrainable = some true then { s with dVer := s.dVer + 1 } else s
  | Event.dTrainFake _ _ =>
      if s.dCompiledTrainable = some true then { s with dVer := s.dVer + 1 } else s
  | Event.ganTrain _ _ =>
      if s.ganCompiledDTrainable = some true then
        { s with gVer := s.gVer + 1, dVer := s.dVer + 1 }
      else { s with gVer := s.gVer + 1 }
  | Event.printLine _ => s

/-- The calls of one epoch of the training loop, in source order:
sample 16 real images, predict 16 fake images from noise, train D on
the real batch with labels np.ones(16), train D on the fake batch with
labels np.zeros(16), train full_gan on 32 fresh noise vectors with
labels np.ones(32), and print a diagnostic line when epoch % 100 == 0. -/
def epochEvents (e : Nat) : List Event :=
  [Event.sampleReal half_batch_size,
   Event.gPredict half_batch_size,
   Event.dTrainReal half_batch_size (realTargets half_batch_size),
   Event.dTrainFake half_batch_size (fakeTargets half_batch_size),
   Event.ganTrain batch_size (realTargets batch_size)]
  ++ (if e % 100 = 0 then [Event.printLine e] else [])

/-- The model-building cell viewed as framework calls, in source order:
D.compile runs while D.trainable is still True; then D.trainable is
assigned False; then full_gan is built and compiled. -/
def setupEvents : List Event :=
  [Event.compileD, Event.assignTrainable false, Event.buildComposite, Event.compileGan]

/-- The whole training loop: for epoch in range(epochs). -/
def loopEvents : List Event := (List.range epochs).flatMap epochEvents

/-- The final cell: G.predict on 9 noise vectors. -/
def finalEvents : List Event := [Event.gPredict 9]

/-- All framework calls of the script in order. -/
def scriptEvents : List Event := setupEvents ++ loopEvents ++ finalEvents

/-- Run a list of framework calls from a state. -/
def run (s : KState) (es : List Event) : KState := es.foldl step s

/-- The state before the script runs: fresh parameter storage and the
Keras default D.trainable = True, nothing compiled yet. -/
def initState : KState :=
  { dVer := 0, gVer := 0, dTrainable := true,
    dCompiledTrainable := none, ganCompiledDTrainable := none, ganBuilt := false }

/-- Events that may appear inside the training loop or the final cell. -/
def isLoopEvent : Event → Bool
  | Event.sampleReal _ => true
  | Event.gPredict _ => true
  | Event.dTrainReal _ _ => true
  | Event.dTrainFake _ _ => true
  | Event.ganTrain _ _ => true
  | Event.printLine _ => true
  | _ => false

/-- The assignment to D.trainable. -/
def isAssignEvent : Event → Bool
  | Event.assignTrainable _ => true
  | _ => false

/-- Training-step events (calls to train_on_batch). -/
def isTrainEvent : Event → Bool
  | Event.dTrainReal _ _ => true
  | Event.dTrainFake _ _ => true
  | Event.ganTrain _ _ => true
  | _ => false

/-- dloss = 0.5 * np.add(rloss, floss): rloss and floss are the
(loss, accuracy) pairs returned by the two discriminator training
steps, combined elementwise. -/
def dlossPair (r f : ℚ × ℚ) : ℚ × ℚ := ((1/2) * (r.1 + f.1), (1/2) * (r.2 + f.2))

/-! ### Invariance helpers for the state machine -/

lemma step_loop_preserves (s : KState) (ev : Event) (h : isLoopEvent ev = true) :
    (step s ev).dTrainable = s.dTrainable ∧
    (step s ev).dCompiledTrainable = s.dCompiledTrainable ∧
    (step s ev).ganCompiledDTrainable = s.ganCompiledDTrainable := by
  cases ev with
  | compileD => simp [isLoopEvent] at h
  | assignTrainable b => simp [isLoopEvent] at h
  | buildComposite => simp [isLoopEvent] at h
  | compileGan => simp [isLoopEvent] at h
  | sampleReal n => exact ⟨rfl, rfl, rfl⟩
  | gPredict n => exact ⟨rfl, rfl, rfl⟩
  | dTrainReal n ls => simp only [step]; split <;> exact ⟨rfl, rfl, rfl⟩
  | dTrainFake n ls => simp only [step]; split <;> exact ⟨rfl, rfl, rfl⟩
  | ganTrain n ls => simp only [step]; split <;> exact ⟨rfl, rfl, rfl⟩
  | printLine e => exact ⟨rfl, rfl, rfl⟩

lemma run_loop_preserves (es : List Event) :
    ∀ s : KState, (∀ ev ∈ es, isLoopEvent ev = true) →
    (run s es).dTrainable = s.dTrainable ∧
    (run s es).dCompiledTrainable = s.dCompiledTrainable ∧
    (run s es).ganCompiledDTrainable = s.ganCompiledDTrainable := by
  induction es with
  | nil => intro s _; exact ⟨rfl, rfl, rfl⟩
  | cons ev es ih =>
      intro s h
      have hev := h ev (List.mem_cons_self ev es)
      have hrest : ∀ e ∈ es, isLoopEvent e = true :=
        fun e he => h e (List.mem_cons_of_mem ev he)
      have h1 := step_loop_preserves s ev hev
      have h2 := ih (step s ev) hrest
      refine ⟨?_, ?_, ?_⟩
      · rw [show run s (ev :: es) = run (step s ev) es from rfl, h2.1, h1.1]
      · rw [show run s (ev :: es) = run (step s ev) es from rfl, h2.2.1, h1.2.1]
      · rw [show run s (ev :: es) = run (step s ev) es from rfl, h2.2.2, h1.2.2]

lemma step_no_assign_trainable (s : KState) (ev : Event) (h : isAssignEvent ev = false) :
    (step s ev).dTrainable = s.dTrainable := by
  cases ev with
  | compileD => rfl
  | assignTrainable b => simp [isAssignEvent] at h
  | buildComposite => rfl
  | compileGan => rfl
  | sampleReal n => rfl
  | gPredict n => rfl
  | dTrainReal n ls => simp only [step]; split <;> rfl
  | dTrainFake n ls => simp only [step]; split <;> rfl
  | ganTrain n ls => simp only [step]; split <;> rfl
  | printLine e => rfl

lemma run_no_assign_trainable (es : List Event) :
    ∀ s : KState, (∀ ev ∈ es, isAssignEvent ev = false) →
    (run s es).dTrainable = s.dTrainable := by
  induction es with
  | nil => intro s _; rfl
  | cons ev es ih =>
      intro s h
      have hev := h ev (List.mem_cons_self ev es)
      have hrest : ∀ e ∈ es, isAssignEvent e = false :=
        fun e he => h e (List.mem_cons_of_mem ev he)
      rw [show run s (ev :: es) = run (step s ev) es from rfl, ih (step s ev) hrest,
        step_no_assign_trainable s ev hev]

lemma epochEvents_no_assign (e : Nat) : ∀ ev ∈ epochEvents e, isAssignEvent ev = false := by
  intro ev hev
  unfold epochEvents at hev
  rcases List.mem_append.mp hev with h | h
  · simp only [List.mem_cons, List.not_mem_nil, or_false] at h
    rcases h with rfl | rfl | rfl | rfl | rfl <;> rfl
  · split at h
    · simp only [List.mem_singleton] at h
      subst h; rfl
    · cases h

lemma epochEvents_loop_only (e : Nat) : ∀ ev ∈ epochEvents e, isLoopEvent ev = true := by
  intro ev hev
  unfold epochEvents at hev
  rcases List.mem_append.mp hev with h | h
  · simp only [List.mem_cons, List.not_mem_nil, or_false] at h
    rcases h with rfl | rfl | rfl | rfl | rfl <;> rfl
  · split at h
    · simp only [List.mem_singleton] at h
      subst h; rfl
    · cases h

lemma loopFinal_no_assign : ∀ ev ∈ loopEvents ++ finalEvents, isAssignEvent ev = false := by
  intro ev hev
  rcases List.mem_append.mp hev with h | h
  · rcases List.mem_flatMap.mp h with ⟨e, _, he⟩
    exact epochEvents_no_assign e ev he
  · simp only [finalEvents, List.mem_singleton] at h
    subst h; rfl

/-! ### Claim C1 -/

/-- C1: there are 30000 epochs with batch_size 32 and half batches of
16; every epoch performs exactly two discriminator training steps —
first on 16 real images, every target 1.0, then on 16 generated images,
every target 0.0 — followed by exactly one composite training step on
32 fresh noise vectors, every target 1.0; and the epoch diagnostics
combine the two discriminator results by the elementwise arithmetic
mean 0.5 * (rloss + floss). -/
theorem c1_epoch_structure :
    epochs = 30000 ∧ batch_size = 32 ∧ half_batch_size = 16 ∧
    (∀ e, (epochEvents e).filter isTrainEvent =
      [Event.dTrainReal 16 (List.replicate 16 1),
       Event.dTrainFake 16 (List.replicate 16 0),
       Event.ganTrain 32 (List.replicate 32 1)]) ∧
    (∀ r f : ℚ × ℚ, dlossPair r f = ((r.1 + f.1) / 2, (r.2 + f.2) / 2)) := by
  refine ⟨rfl, rfl, rfl, ?_, ?_⟩
  · intro e
    unfold epochEvents
    split <;> rfl
  · intro r f
    unfold dlossPair
    simp only [Prod.mk.injEq]
    constructor <;> ring

/-! ### Claim C8 -/

/-- C8: running G in inference mode — the fake half-batch prediction
inside every epoch and the 9 final samples — is a pure read: it leaves
the whole framework state, in particular every parameter of D and G
(and hence of the composite model, which shares their storage),
unchanged.  Both occurrences are present in the script: each epoch
contains the half-batch prediction and the last call of the script is
the 9-sample prediction. -/
theorem c8_predict_pure :
    (∀ (s : KState) (n : Nat), step s (Event.gPredict n) = s) ∧
    (∀ e, Event.gPredict half_batch_size ∈ epochEvents e) ∧
    scriptEvents.getLast? = some (Event.gPredict 9) := by
  refine ⟨fun s n => rfl, ?_, ?_⟩
  · intro e
    unfold epochEvents
    exact List.mem_append.mpr
      (Or.inl (List.mem_cons_of_mem _ (List.mem_cons_self _ _)))
  · show ((setupEvents ++ loopEvents) ++ finalEvents).getLast? = some (Event.gPredict 9)
    exact List.getLast?_concat (setupEvents ++ loopEvents)

/-! ### Claim C10 -/

/-- C10: D.trainable is assigned exactly once in the whole script — the
assignment of False in the model-building cell, before the composite
model is built and before the loop begins — and from that point on the
flag stays False through the entire loop and the final sample
generation: after any prefix of the script extending past the
assignment, the flag reads False. -/
theorem c10_flag_assigned_once :
    (∃ rest, scriptEvents =
        Event.compileD :: Event.assignTrainable false ::
        Event.buildComposite :: Event.compileGan :: rest ∧
      ∀ ev ∈ rest, isAssignEvent ev = false) ∧
    (∀ n, 2 ≤ n → (run initState (scriptEvents.take n)).dTrainable = false) := by
  have hscript : scriptEvents =
      Event.compileD :: Event.assignTrainable false ::
      Event.buildComposite :: Event.compileGan :: (loopEvents ++ finalEvents) := by
    unfold scriptEvents setupEvents
    simp only [List.cons_append, List.nil_append, List.append_assoc]
  have htail : ∀ ev ∈ Event.buildComposite :: Event.compileGan :: (loopEvents ++ finalEvents),
      isAssignEvent ev = false := by
    intro ev hev
    rcases List.mem_cons.mp hev with rfl | hev
    · rfl
    · rcases List.mem_cons.mp hev with rfl | hev
      · rfl
      · exact loopFinal_no_assign ev hev
  constructor
  · exact ⟨loopEvents ++ finalEvents, hscript, loopFinal_no_assign⟩
  · intro n hn
    obtain ⟨m, rfl⟩ : ∃ m, n = m + 2 := ⟨n - 2, by omega⟩
    rw [hscript]
    show (run initState (Event.compileD :: Event.assignTrainable false ::
      (Event.buildComposite :: Event.compileGan :: (loopEvents ++ finalEvents)).take m)).dTrainable
        = false
    have h2 : run initState (Event.compileD :: Event.assignTrainable false ::
        (Event.buildComposite :: Event.compileGan :: (loopEvents ++ finalEvents)).take m)
      = run (run initState [Event.compileD, Event.assignTrainable false])
          ((Event.buildComposite :: Event.compileGan :: (loopEvents ++ finalEvents)).take m) := rfl
    rw [h2, run_no_assign_trainable _ _
      (fun ev hev => htail ev (List.take_subset m _ hev))]
    rfl

/-- Witness for C10 applied four calls into the script: the flag reads
False there. -/
theorem c10_flag_assigned_once_witness :
    (run initState (scriptEvents.take 4)).dTrainable = false :=
  c10_flag_assigned_once.2 4 (by decide)

/-! ### Claim C2 -/

/-- C2 counterexample: directly after the first discriminator training
step of the first epoch, a parameter update of D has happened
(dVer = 1) and yet the D.trainable flag reads False, not True — the
script never sets it back to trainable after a direct discriminator
update, contradicting the claimed toggling. -/
theorem c2_counterexample :
    (run initState (setupEvents ++
        [Event.sampleReal 16, Event.gPredict 16,
         Event.dTrainReal 16 (realTargets 16)])).dVer = 1 ∧
    (run initState (setupEvents ++
        [Event.sampleReal 16, Event.gPredict 16,
         Event.dTrainReal 16 (realTargets 16)])).dTrainable = false := by
  constructor <;> rfl

/-- C2 amended: at every point of the loop reached after the setup
cell, a direct discriminator training step updates the parameters of D
and leaves those of G untouched (D was compiled while its flag was
still True), and a composite training step updates only the parameters
of G and leaves those of D untouched (full_gan was compiled with D
frozen); but the D.trainable flag itself is False throughout — it is
assigned once before the loop and never set back to trainable after a
discriminator step. -/
theorem c2_freeze_semantics (es : List Event) (n : Nat) (ls : List ℚ)
    (h : ∀ ev ∈ es, isLoopEvent ev = true) :
    let s := run (run initState setupEvents) es
    s.dTrainable = false ∧
    (step s (Event.dTrainReal n ls)).dVer = s.dVer + 1 ∧
    (step s (Event.dTrainReal n ls)).gVer = s.gVer ∧
    (step s (Event.dTrainFake n ls)).dVer = s.dVer + 1 ∧
    (step s (Event.ganTrain n ls)).gVer = s.gVer + 1 ∧
    (step s (Event.ganTrain n ls)).dVer = s.dVer ∧
    (step s (Event.dTrainReal n ls)).dTrainable = false := by
  intro s
  have hpres := run_loop_preserves es (run initState setupEvents) h
  have hflag : s.dTrainable = false := by
    rw [show s = run (run initState setupEvents) es from rfl, hpres.1]; rfl
  have hdc : s.dCompiledTrainable = some true := by
    rw [show s = run (run initState setupEvents) es from rfl, hpres.2.1]; rfl
  have hgc : s.ganCompiledDTrainable = some false := by
    rw [show s = run (run initState setupEvents) es from rfl, hpres.2.2]; rfl
  refine ⟨hflag, ?_, ?_, ?_, ?_, ?_, ?_⟩
  · show (step s (Event.dTrainReal n ls)).dVer = s.dVer + 1
    simp only [step]; rw [if_pos hdc]
  · show (step s (Event.dTrainReal n ls)).gVer = s.gVer
    simp only [step]; rw [if_pos hdc]
  · show (step s (Event.dTrainFake n ls)).dVer = s.dVer + 1
    simp only [step]; rw [if_pos hdc]
  · show (step s (Event.ganTrain n ls)).gVer = s.gVer + 1
    simp only [step]
    rw [if_neg (by rw [hgc]; simp)]
  · show (step s (Event.ganTrain n ls)).dVer = s.dVer
    simp only [step]
    rw [if_neg (by rw [hgc]; simp)]
  · show (step s (Event.dTrainReal n ls)).dTrainable = false
    simp only [step]; rw [if_pos hdc]; exact hflag

/-- Witness for C2 amended, at the state right after setup. -/
theorem c2_freeze_semantics_witness :
    let s := run (run initState setupEvents) []
    s.dTrainable = false ∧
    (step s (Event.dTrainReal 16 (realTargets 16))).dVer = s.dVer + 1 ∧
    (step s (Event.dTrainReal 16 (realTargets 16))).gVer = s.gVer ∧
    (step s (Event.dTrainFake 16 (fakeTargets 16))).dVer = s.dVer + 1 ∧
    (step s (Event.ganTrain 32 (realTargets 32))).gVer = s.gVer + 1 ∧
    (step s (Event.ganTrain 32 (realTargets 32))).dVer = s.dVer ∧
    (step s (Event.dTrainReal 16 (realTargets 16))).dTrainable = false := by
  refine ⟨?_, ?_, ?_, ?_, ?_, ?_, ?_⟩
  · exact (c2_freeze_semantics [] 16 (realTargets 16) (by simp)).1
  · exact (c2_freeze_semantics [] 16 (realTargets 16) (by simp)).2.1
  · exact (c2_freeze_semantics [] 16 (realTargets 16) (by simp)).2.2.1
  · exact (c2_freeze_semantics [] 16 (fakeTargets 16) (by simp)).2.2.2.1
  · exact (c2_freeze_semantics [] 32 (realTargets 32) (by simp)).2.2.2.2.1
  · exact (c2_freeze_semantics [] 32 (realTargets 32) (by simp)).2.2.2.2.2.1
  · exact (c2_freeze_semantics [] 16 (realTargets 16) (by simp)).2.2.2.2.2.2

/-! ## Network forward passes (notebook cell 2)

D and G are plain stacks of dense layers with LeakyReLU activations
(Keras 1.x/2.x default negative slope 0.3); D ends in Dense(1) with a
sigmoid, G ends in MaxoutDense(res) followed by Reshape(img_shape).
The dense arithmetic is exact over ℚ; only the final sigmoid of D needs
the real exponential.
-/

/-- Dot product of a weight row with an input vector. -/
def dot (w x : List ℚ) : ℚ := ((w.zip x).map (fun p => p.1 * p.2)).sum

/-- A dense layer: one output per weight row, each a biased dot
product with the input. -/
def denseLayer (W : List (List ℚ)) (b : List ℚ) (x : List ℚ) : List ℚ :=
  (W.zip b).map (fun r => dot r.1 x + r.2)

/-- LeakyReLU with the Keras default negative slope 0.3. -/
def leakyReLU (x : ℚ) : ℚ := if x < 0 then (3/10) * x else x

/-- Flatten(input_shape=img_shape): row-major flattening of the image. -/
def flattenImg (img : List (List ℚ)) : List ℚ := img.flatten

/-- The image has h rows, each of length w. -/
def isShape (img : List (List ℚ)) (h w : Nat) : Prop :=
  img.length = h ∧ ∀ r ∈ img, r.length = w

/-- The parameter tensors of D: three hidden dense layers and the
final Dense(1) row with its bias. -/
structure DParams where
  w1 : List (List ℚ)
  b1 : List ℚ
  w2 : List (List ℚ)
  b2 : List ℚ
  w3 : List (List ℚ)
  b3 : List ℚ
  w4 : List ℚ
  b4 : ℚ

/-- The logistic sigmoid, the activation of the last layer of D. -/
noncomputable def sigmoid (x : ℚ) : ℝ := 1 / (1 + Real.exp (-(x : ℝ)))

/-- The forward pass of D: Flatten, three Dense+LeakyReLU blocks, then
Dense(1) with sigmoid activation, giving a single scalar. -/
noncomputable def dForward (p : DParams) (img : List (List ℚ)) : ℝ :=
  let x0 := flattenImg img
  let x1 := (denseLayer p.w1 p.b1 x0).map leakyReLU
  let x2 := (denseLayer p.w2 p.b2 x1).map leakyReLU
  let x3 := (denseLayer p.w3 p.b3 x2).map leakyReLU
  sigmoid (dot p.w4 x3 + p.b4)

/-- The parameter tensors of G: three hidden dense layers and the
MaxoutDense layer, which holds for each output unit a list of linear
feature maps (weight row and bias). -/
structure GParams where
  w1 : List (List ℚ)
  b1 : List ℚ
  w2 : List (List ℚ)
  b2 : List ℚ
  w3 : List (List ℚ)
  b3 : List ℚ
  mo : List (List (List ℚ × ℚ))

/-- One MaxoutDense output unit: the maximum over its linear feature
maps evaluated at the input. -/
def maxoutUnit (feats : List (List ℚ × ℚ)) (x : List ℚ) : ℚ :=
  match feats with
  | [] => 0
  | f :: fs => fs.foldl (fun m g => rmax m (dot g.1 x + g.2)) (dot f.1 x + f.2)

/-- MaxoutDense(res): one maxout unit per output coordinate. -/
def maxoutLayer (mo : List (List (List ℚ × ℚ))) (x : List ℚ) : List ℚ :=
  mo.map (fun u => maxoutUnit u x)

/-- Cut a flat vector into h rows of w entries each. -/
def chunkRows (w : Nat) : Nat → List ℚ → List (List ℚ)
  | 0, _ => []
  | h + 1, l => l.take w :: chunkRows w h (l.drop w)

/-- Reshape(img_shape): succeeds exactly when the flat vector has h*w
entries, and then returns the h×w image. -/
def reshapeTo (h w : Nat) (l : List ℚ) : Option (List (List ℚ)) :=
  if l.length = h * w then some (chunkRows w h l) else none

/-- The forward pass of G: three Dense+LeakyReLU blocks, MaxoutDense,
then Reshape to the image shape. -/
def gForward (H W : Nat) (p : GParams) (z : List ℚ) : Option (List (List ℚ)) :=
  let x1 := (denseLayer p.w1 p.b1 z).map leakyReLU
  let x2 := (denseLayer p.w2 p.b2 x1).map leakyReLU
  let x3 := (denseLayer p.w3 p.b3 x2).map leakyReLU
  reshapeTo H W (maxoutLayer p.mo x3)

/-- The parameter tensors of G have the widths fixed by the
architecture for images of resolution res = H*W: Dense(res/4),
Dense(res/2), Dense(res), MaxoutDense(res). -/
def GWellFormed (H W : Nat) (p : GParams) : Prop :=
  p.w1.length = res H W / 4 ∧ p.b1.length = res H W / 4 ∧
  p.w2.length = res H W / 2 ∧ p.b2.length = res H W / 2 ∧
  p.w3.length = res H W ∧ p.b3.length = res H W ∧
  p.mo.length = res H W

/-- Boolean check that the inference output of G exists and is an
image of shape exactly (H, W). -/
def gOutShapeOK (H W : Nat) (p : GParams) (z : List ℚ) : Bool :=
  match gForward H W p z with
  | some img => img.length == H && img.all (fun r => r.length == W)
  | none => false

lemma chunkRows_shape (w : Nat) :
    ∀ (h : Nat) (l : List ℚ), l.length = h * w →
    (chunkRows w h l).length = h ∧ ∀ r ∈ chunkRows w h l, r.length = w := by
  intro h
  induction h with
  | zero =>
      intro l _
      exact ⟨rfl, fun r hr => absurd hr (List.not_mem_nil r)⟩
  | succ h ih =>
      intro l hl
      have hw : w ≤ l.length := by
        rw [hl, Nat.succ_mul]
        exact Nat.le_add_left w (h * w)
      have hdrop : (l.drop w).length = h * w := by
        rw [List.length_drop, hl, Nat.succ_mul, Nat.add_sub_cancel]
      have htake : (l.take w).length = w := by
        rw [List.length_take]
        exact Nat.min_eq_left hw
      obtain ⟨ihlen, ihrows⟩ := ih (l.drop w) hdrop
      constructor
      · show (l.take w :: chunkRows w h (l.drop w)).length = h + 1
        rw [List.length_cons, ihlen]
      · intro r hr
        rcases List.mem_cons.mp hr with rfl | hr
        · exact htake
        · exact ihrows r hr

/-! ### Claim C7 -/

/-- C7: for every value of the parameters of G (with the widths the
architecture fixes) and every noise vector of length
N = noise_res H W, the inference output of G is defined and has shape
exactly (H, W), the shape of the training images — the MaxoutDense
layer emits res = H*W values and Reshape cuts them into H rows of W. -/
theorem c7_generator_output_shape (H W : Nat) (p : GParams) (z : List ℚ)
    (hwf : GWellFormed H W p) (hz : z.length = noise_res H W) :
    gOutShapeOK H W p z = true := by
  have hmo : (maxoutLayer p.mo
      (((denseLayer p.w3 p.b3
        ((denseLayer p.w2 p.b2
          ((denseLayer p.w1 p.b1 z).map leakyReLU)).map leakyReLU))).map leakyReLU)).length
      = H * W := by
    rw [show ∀ x, (maxoutLayer p.mo x).length = p.mo.length from fun x => List.length_map _ _]
    exact hwf.2.2.2.2.2.2
  unfold gOutShapeOK gForward reshapeTo
  rw [if_pos hmo]
  obtain ⟨hlen, hrows⟩ := chunkRows_shape W H _ hmo
  simp only [hlen, beq_self_eq_true, Bool.true_and]
  rw [List.all_eq_true]
  intro r hr
  exact beq_iff_eq.mpr (hrows r hr)

/-- Witness for C7 on 2×2 images (res 4, noise dimension 1) with
zero-sized weight rows and empty maxout feature lists. -/
theorem c7_generator_output_shape_witness :
    gOutShapeOK 2 2
      { w1 := List.replicate 1 [], b1 := List.replicate 1 0,
        w2 := List.replicate 2 [], b2 := List.replicate 2 0,
        w3 := List.replicate 4 [], b3 := List.replicate 4 0,
        mo := List.replicate 4 [] } [0] = true :=
  c7_generator_output_shape 2 2
    { w1 := List.replicate 1 [], b1 := List.replicate 1 0,
      w2 := List.replicate 2 [], b2 := List.replicate 2 0,
      w3 := List.replicate 4 [], b3 := List.replicate 4 0,
      mo := List.replicate 4 [] } [0]
    (by exact ⟨rfl, rfl, rfl, rfl, rfl, rfl, rfl⟩) rfl

/-! ### Claim C6 -/

/-- C6: for every input image of the correct shape and every value of
the parameters of D, the inference output of D is a single scalar
strictly between 0 and 1, because the final Dense(1) layer applies the
sigmoid. -/
theorem c6_discriminator_output_range (H W : Nat) (p : DParams)
    (img : List (List ℚ)) (hshape : isShape img H W) :
    0 < dForward p img ∧ dForward p img < 1 := by
  have hexp : (0 : ℝ) < Real.exp (-((dot p.w4
      (((denseLayer p.w3 p.b3
        (((denseLayer p.w2 p.b2
          (((denseLayer p.w1 p.b1 (flattenImg img))).map leakyReLU))).map leakyReLU))).map leakyReLU)
      + p.b4 : ℚ) : ℝ)) := Real.exp_pos _
  constructor
  · show (0 : ℝ) < sigmoid _
    unfold sigmoid
    positivity
  · show sigmoid _ < 1
    unfold sigmoid
    rw [div_lt_one (by positivity)]
    linarith

/-- All-empty parameter tensors for D, used by the C6 witness. -/
def dParamsZero : DParams :=
  ⟨[], [], [], [], [], [], [], 0⟩

/-- A 28×28 all-zero image, used by the C6 witness. -/
def imgZero : List (List ℚ) := List.replicate 28 (List.replicate 28 0)

/-- Witness for C6 on a 28×28 all-zero image with empty parameter
tensors. -/
theorem c6_discriminator_output_range_witness :
    0 < dForward dParamsZero imgZero ∧ dForward dParamsZero imgZero < 1 :=
  c6_discriminator_output_range 28 28 dParamsZero imgZero
    ⟨by simp [imgZero], fun r hr => by
      have h := List.eq_of_mem_replicate (show r ∈ List.replicate 28 (List.replicate 28 (0:ℚ)) from hr)
      rw [h]; simp⟩

/-! ## Diagnostic logging (notebook cell 3)

Source lines:
  if epoch % 100 == 0:
    print ("%d [D loss: %f, acc.: %.2f%%] [G loss: %f]"
           % (epoch, dloss[0], 100*dloss[1], gloss[0]))
%f prints 6 digits after the decimal point, %.2f prints 2, both with
round-half-to-even at the last kept digit; %d prints the decimal
integer.
-/

/-- Decimal digit characters of n, most significant first ("0" for 0). -/
def natDigits (n : Nat) : List Char :=
  if n = 0 then ['0'] else (Nat.digits 10 n).reverse.map Nat.digitChar

/-- %d rendering of a nonnegative integer. -/
def natStr (n : Nat) : String := String.mk (natDigits n)

/-- The fractional field of a fixed-point rendering: the digits of n
(which the caller keeps below 10^p) left-padded with zeros to exactly
p characters. -/
def fracDigits (m p : Nat) : List Char :=
  List.replicate (p - (Nat.digits 10 m).length) '0'
    ++ (Nat.digits 10 m).reverse.map Nat.digitChar

/-- printf rounding: round to the nearest integer, ties to even. -/
def roundHalfEven (q : ℚ) : ℤ :=
  if q - Int.floor q < 1/2 then Int.floor q
  else if 1/2 < q - Int.floor q then Int.floor q + 1
  else if Int.floor q % 2 = 0 then Int.floor q else Int.floor q + 1

/-- Fixed-point rendering with p digits after the decimal point, the
convention of %f (p = 6) and %.2f (p = 2). -/
def formatFixed (q : ℚ) (p : Nat) : String :=
  String.mk ((if roundHalfEven (q * (10 : ℚ) ^ p) < 0 then ['-'] else [])
    ++ natDigits ((roundHalfEven (q * (10 : ℚ) ^ p)).natAbs / 10 ^ p)
    ++ '.' :: fracDigits ((roundHalfEven (q * (10 : ℚ) ^ p)).natAbs % 10 ^ p) p)

/-- The diagnostic line built by the print statement. -/
def logLine (e : Nat) (dl da gl : ℚ) : String :=
  natStr e ++ " [D loss: " ++ formatFixed dl 6 ++ ", acc.: "
    ++ formatFixed (100 * da) 2 ++ "%] [G loss: " ++ formatFixed gl 6 ++ "]"

/-- The conditional print of the loop body: the line for epochs that
are multiples of 100, nothing otherwise. -/
def epochOutput (e : Nat) (dl da gl : ℚ) : Option String :=
  if e % 100 = 0 then some (logLine e dl da gl) else none

/-- The string has exactly p digit characters after its last point:
its last p characters are digits and the character before them is the
point. -/
def decimalsOK (s : String) (p : Nat) : Bool :=
  (s.data.reverse.take p).all Char.isDigit && (s.data.reverse.getD p ' ' == '.')

/-! ### Helper lemmas for the rendering -/

lemma digits_len_le_of_lt_pow {n p : Nat} (h : n < 10 ^ p) :
    (Nat.digits 10 n).length ≤ p := by
  rcases Nat.eq_zero_or_pos n with rfl | hn
  · simp
  · by_contra hlen
    push_neg at hlen
    have h1 : 10 ^ (Nat.digits 10 n).length ≤ 10 * n :=
      Nat.base_pow_length_digits_le 10 n (by norm_num) (Nat.pos_iff_ne_zero.mp hn)
    have h2 : 10 ^ (p + 1) ≤ 10 ^ (Nat.digits 10 n).length :=
      Nat.pow_le_pow_right (by norm_num) hlen
    have h3 : 10 * 10 ^ p ≤ 10 * n := by
      calc 10 * 10 ^ p = 10 ^ (p + 1) := by ring
        _ ≤ 10 ^ (Nat.digits 10 n).length := h2
        _ ≤ 10 * n := h1
    have h4 : 10 ^ p ≤ n := Nat.le_of_mul_le_mul_left h3 (by norm_num)
    omega

lemma digitChar_isDigit : ∀ d, d < 10 → (Nat.digitChar d).isDigit = true := by
  decide

lemma fracDigits_length {m p : Nat} (h : m < 10 ^ p) :
    (fracDigits m p).length = p := by
  unfold fracDigits
  rw [List.length_append, List.length_replicate, List.length_map, List.length_reverse]
  exact Nat.sub_add_cancel (digits_len_le_of_lt_pow h)

lemma fracDigits_all_digit (m p : Nat) :
    ∀ c ∈ fracDigits m p, c.isDigit = true := by
  intro c hc
  unfold fracDigits at hc
  rcases List.mem_append.mp hc with h | h
  · rw [List.eq_of_mem_replicate h]
    rfl
  · rcases List.mem_map.mp h with ⟨d, hd, rfl⟩
    exact digitChar_isDigit d
      (Nat.digits_lt_base (by norm_num) (List.mem_reverse.mp hd))

lemma decimalsOK_of_shape (pre frac : List Char) (p : Nat)
    (hlen : frac.length = p) (hdig : ∀ c ∈ frac, c.isDigit = true) :
    decimalsOK (String.mk (pre ++ '.' :: frac)) p = true := by
  have hrevlen : frac.reverse.length = p := by
    rw [List.length_reverse]; exact hlen
  unfold decimalsOK
  have hdata : (String.mk (pre ++ '.' :: frac)).data = pre ++ '.' :: frac := rfl
  rw [hdata, List.reverse_append, List.reverse_cons, List.append_assoc,
    List.singleton_append]
  have h1 : (frac.reverse ++ '.' :: pre.reverse).take p = frac.reverse := by
    rw [← hrevlen]
    exact List.take_left _ _
  have h2 : (frac.reverse ++ '.' :: pre.reverse).getD p ' ' = '.' := by
    rw [List.getD_append_right _ _ _ _ (le_of_eq hrevlen), hrevlen, Nat.sub_self]
    rfl
  rw [h1, h2, Bool.and_eq_true, List.all_eq_true]
  exact ⟨fun c hc => hdig c (List.mem_reverse.mp hc), rfl⟩

lemma formatFixed_decimalsOK (q : ℚ) (p : Nat) :
    decimalsOK (formatFixed q p) p = true := by
  have hmod : (roundHalfEven (q * (10 : ℚ) ^ p)).natAbs % 10 ^ p < 10 ^ p :=
    Nat.mod_lt _ (Nat.pos_pow_of_pos p (by norm_num))
  unfold formatFixed
  exact decimalsOK_of_shape _ _ p (fracDigits_length hmod) (fracDigits_all_digit _ p)

/-! ### Claim C4 -/

/-- C4: a diagnostic line is emitted exactly at the epochs that are
multiples of 100 (including epoch 0) — the printLine event sits in the
epoch trace exactly then — and the line is the epoch index followed by
" [D loss: ", the discriminator loss rendered with 6 decimal places,
", acc.: ", the averaged accuracy times 100 rendered with 2 decimal
places, "%] [G loss: ", the generator loss rendered with 6 decimal
places, and "]"; each rendered number carries exactly the stated count
of digits after its decimal point. -/
theorem c4_log_format (e : Nat) (dl da gl : ℚ) :
    ((epochOutput e dl da gl).isSome ↔ e % 100 = 0) ∧
    (Event.printLine e ∈ epochEvents e ↔ e % 100 = 0) ∧
    epochOutput e dl da gl =
      (if e % 100 = 0 then
        some (natStr e ++ " [D loss: " ++ formatFixed dl 6 ++ ", acc.: "
          ++ formatFixed (100 * da) 2 ++ "%] [G loss: " ++ formatFixed gl 6 ++ "]")
       else none) ∧
    decimalsOK (formatFixed dl 6) 6 = true ∧
    decimalsOK (formatFixed (100 * da) 2) 2 = true ∧
    decimalsOK (formatFixed gl 6) 6 = true := by
  refine ⟨?_, ?_, rfl, formatFixed_decimalsOK dl 6,
    formatFixed_decimalsOK (100 * da) 2, formatFixed_decimalsOK gl 6⟩
  · unfold epochOutput
    split
    · simpa using (by assumption)
    · simpa using (by assumption)
  · unfold epochEvents
    constructor
    · intro h
      rcases List.mem_append.mp h with h | h
      · simp only [List.mem_cons, List.not_mem_nil, or_false] at h
        rcases h with h | h | h | h | h <;> exact Event.noConfusion h
      · split at h
        · assumption
        · cases h
    · intro h
      rw [if_pos h]
      exact List.mem_append.mpr (Or.inr (List.mem_singleton.mpr rfl))
